import Mathlib

/-!
Verification of the MapAIAgent scraping pipeline (src/main.py).

Strings are modelled as lists of characters (`Str`).  Every effectful
interaction of the pipeline (DOM queries, HTTP attempts, the contact
resolver) is modelled by an explicit observation value passed to the
embedded function, so that each embedded function is a pure, executable
translation of the corresponding Python code.
-/

set_option maxHeartbeats 1000000

abbrev Str := List Char

/-- Coerces a Lean string literal into the character-list model. -/
def str (s : String) : Str := s.data

/-- Model of the whitespace class stripped by Python's str.strip and
matched by the regex class backslash-s (ASCII portion). -/
def isSpace (c : Char) : Bool :=
  c = ' ' || c = '\t' || c = '\n' || c = '\r' || c = '\x0B' || c = '\x0C'

/-- Characters removed by the first substitution in clean_field:
U+200B..U+200D and U+FEFF (src/main.py line 87). -/
def isZW (c : Char) : Bool :=
  c = '\u200B' || c = '\u200C' || c = '\u200D' || c = '\uFEFF'

/-- Removes trailing characters satisfying isSpace. -/
def rdropSpace (s : Str) : Str := (s.reverse.dropWhile isSpace).reverse

/-- Model of Python str.strip(): removes leading and trailing whitespace. -/
def strip (s : Str) : Str := rdropSpace (s.dropWhile isSpace)

/-- Model of Python str.split(sep) for a one-character separator. -/
def splitOnChar (sep : Char) : Str → List Str
  | [] => [[]]
  | c :: cs =>
    let rest := splitOnChar sep cs
    if c = sep then [] :: rest
    else (c :: rest.headD []) :: rest.tail

/-- Model of ' '.join(parts) (src/main.py line 93). -/
def joinSp : List Str → Str
  | [] => []
  | [l] => l
  | l :: l' :: ls => l ++ ' ' :: joinSp (l' :: ls)

/-- Duplicate removal keeping the first occurrence, with an explicit seen
set, as in src/main.py lines 91-92. -/
def dedupFirstAux {α : Type} [DecidableEq α] (seen : List α) : List α → List α
  | [] => []
  | x :: xs =>
    if x ∈ seen then dedupFirstAux seen xs
    else x :: dedupFirstAux (x :: seen) xs

/-- Embedding of clean_field (src/main.py lines 83-93). -/
def clean_field (value : Str) : Str :=
  if value = [] then []
  else
    let v := value.filter (fun c => !(isZW c))
    let lines := ((splitOnChar '\n' v).map strip).filter (fun l => decide (l ≠ []))
    let cleaned := dedupFirstAux [] lines
    strip (joinSp cleaned)

/-! JSON model.  The Python code delegates parsing to the standard json
module (json.JSONDecoder().raw_decode); the model below is a shallow
embedding of that decoder restricted to integer numeric literals. -/

/-- JSON values as produced by the json decoder. -/
inductive JVal where
  | null : JVal
  | bool (b : Bool) : JVal
  | num (n : Int) : JVal
  | jstr (s : Str) : JVal
  | arr (xs : List JVal) : JVal
  | obj (entries : List (Str × JVal)) : JVal

/-- JSON insignificant whitespace. -/
def jsonWs (c : Char) : Bool := c = ' ' || c = '\t' || c = '\n' || c = '\r'

def skipWs (s : Str) : Str := s.dropWhile jsonWs

def hexVal (c : Char) : Option Nat :=
  if '0' ≤ c ∧ c ≤ '9' then some (c.toNat - '0'.toNat)
  else if 'a' ≤ c ∧ c ≤ 'f' then some (c.toNat - 'a'.toNat + 10)
  else if 'A' ≤ c ∧ c ≤ 'F' then some (c.toNat - 'A'.toNat + 10)
  else none

/-- Parses the body of a JSON string after the opening quote; returns the
decoded characters and the remaining input.  Raw control characters and
invalid escapes are rejected, as by the strict json decoder. -/
def parseStrBody : Str → Option (Str × Str)
  | [] => none
  | '"' :: rest => some ([], rest)
  | '\\' :: 'u' :: h1 :: h2 :: h3 :: h4 :: rest => do
    let a ← hexVal h1
    let b ← hexVal h2
    let c ← hexVal h3
    let d ← hexVal h4
    let (t, r) ← parseStrBody rest
    pure (Char.ofNat (((a * 16 + b) * 16 + c) * 16 + d) :: t, r)
  | '\\' :: e :: rest =>
    let dec : Option Char :=
      if e = '"' then some '"'
      else if e = '\\' then some '\\'
      else if e = '/' then some '/'
      else if e = 'b' then some '\x08'
      else if e = 'f' then some '\x0C'
      else if e = 'n' then some '\n'
      else if e = 'r' then some '\r'
      else if e = 't' then some '\t'
      else none
    match dec with
    | none => none
    | some d => do
      let (t, r) ← parseStrBody rest
      pure (d :: t, r)
  | c :: rest =>
    if c.toNat < 32 then none
    else do
      let (t, r) ← parseStrBody rest
      pure (c :: t, r)

def digitsToNat (ds : Str) : Nat := ds.foldl (fun a c => a * 10 + (c.toNat - '0'.toNat)) 0

/-- Parses a JSON integer literal (sign and digit run, with the JSON
leading-zero restriction); fraction and exponent forms are outside this
model. -/
def parseNum (s : Str) : Option (JVal × Str) :=
  let (neg, s') := match s with
    | '-' :: rest => (true, rest)
    | _ => (false, s)
  let ds := s'.takeWhile Char.isDigit
  let rest := s'.drop ds.length
  if ds = [] then none
  else if ds.length > 1 ∧ ds.headD '0' = '0' then none
  else
    match rest with
    | '.' :: _ => none
    | 'e' :: _ => none
    | 'E' :: _ => none
    | _ =>
      let n : Int := Int.ofNat (digitsToNat ds)
      some (.num (if neg then -n else n), rest)

mutual

/-- Recursive-descent JSON value parser with explicit fuel; model of the
json decoder's scanner. -/
def parseVal : Nat → Str → Option (JVal × Str)
  | 0, _ => none
  | fuel + 1, s =>
    match s with
    | '{' :: rest => parseObjBody fuel (skipWs rest)
    | '[' :: rest => parseArrBody fuel (skipWs rest)
    | '"' :: rest => (parseStrBody rest).map (fun p => (.jstr p.1, p.2))
    | 't' :: 'r' :: 'u' :: 'e' :: rest => some (.bool true, rest)
    | 'f' :: 'a' :: 'l' :: 's' :: 'e' :: rest => some (.bool false, rest)
    | 'n' :: 'u' :: 'l' :: 'l' :: rest => some (.null, rest)
    | _ => parseNum s

def parseObjBody : Nat → Str → Option (JVal × Str)
  | 0, _ => none
  | fuel + 1, s =>
    match s with
    | '}' :: rest => some (.obj [], rest)
    | _ => parseMembers fuel s []

def parseMembers : Nat → Str → List (Str × JVal) → Option (JVal × Str)
  | 0, _, _ => none
  | fuel + 1, s, acc =>
    match s with
    | '"' :: rest =>
      match parseStrBody rest with
      | none => none
      | some (key, r1) =>
        match skipWs r1 with
        | ':' :: r2 =>
          match parseVal fuel (skipWs r2) with
          | none => none
          | some (v, r3) =>
            match skipWs r3 with
            | ',' :: r4 =>
              match skipWs r4 with
              | '"' :: _ => parseMembers fuel (skipWs r4) (acc ++ [(key, v)])
              | _ => none
            | '}' :: r4 => some (.obj (acc ++ [(key, v)]), r4)
            | _ => none
        | _ => none
    | _ => none

def parseArrBody : Nat → Str → Option (JVal × Str)
  | 0, _ => none
  | fuel + 1, s =>
    match s with
    | ']' :: rest => some (.arr [], rest)
    | _ => parseElems fuel s []

def parseElems : Nat → Str → List JVal → Option (JVal × Str)
  | 0, _, _ => none
  | fuel + 1, s, acc =>
    match parseVal fuel s with
    | none => none
    | some (v, r1) =>
      match skipWs r1 with
      | ',' :: r2 => parseElems fuel (skipWs r2) (acc ++ [v])
      | ']' :: r2 => some (.arr (acc ++ [v]), r2)
      | _ => none

end

/-- Model of json.JSONDecoder().raw_decode: decodes one JSON value from
the start of the input and ignores any trailing content (src/main.py
lines 49-50). -/
def rawDecode (s : Str) : Option JVal :=
  (parseVal (2 * s.length + 2) s).map Prod.fst

/-! Embedding of gemini_generate (src/main.py lines 27-72). -/

/-- Shortest segment of the input ending at the first closing brace,
inclusive; none if there is no closing brace. -/
def takeToBrace : Str → Option Str
  | [] => none
  | c :: cs => if c = '}' then some [c] else (takeToBrace cs).map (fun t => c :: t)

/-- Model of re.search applied to the pattern matching one opening brace,
a non-greedy DOTALL gap, and one closing brace (src/main.py line 44): the
leftmost-shortest match runs from the first opening brace to the first
closing brace after it. -/
def reSearchBrace : Str → Option Str
  | [] => none
  | c :: cs =>
    if c = '{' then (takeToBrace cs).map (fun t => c :: t)
    else reSearchBrace cs

/-- Embedding of the reply-parsing portion of gemini_generate
(src/main.py lines 42-56): regex-extract a brace-delimited substring,
raw-decode it; every failure path returns none. -/
def parseReply (text : Str) : Option JVal :=
  match reSearchBrace text with
  | some js => rawDecode js
  | none => none

/-- Observable outcome of one HTTP attempt inside gemini_generate:
a request timeout, an HTTP error status raised by raise_for_status, any
other exception, or a 2xx response whose extracted candidate text is the
given string. -/
inductive AttemptObs where
  | timeout : AttemptObs
  | httpError (status : Nat) : AttemptObs
  | otherError : AttemptObs
  | success (reply : Str) : AttemptObs
deriving DecidableEq

def isSuccessA : AttemptObs → Bool
  | .success _ => true
  | _ => false

/-- Embedding of the retry loop of gemini_generate over the list of
remaining attempt outcomes; an exhausted list is the loop running off its
last iteration, which returns None implicitly (src/main.py lines 34-72). -/
def geminiRun : List AttemptObs → Option JVal
  | [] => none
  | o :: rest =>
    match o with
    | .success reply => parseReply reply
    | .timeout => geminiRun rest
    | .httpError status =>
      if status = 429 then geminiRun rest
      else if rest = [] then none
      else geminiRun rest
    | .otherError => if rest = [] then none else geminiRun rest

/-- Embedding of gemini_generate: runs the retry loop for exactly
max_attempts = 7 attempts (src/main.py line 32), the i-th attempt
observing obs i. -/
def gemini_generate (obs : Nat → AttemptObs) : Option JVal :=
  geminiRun ((List.range 7).map obs)

/-! Embedding of the scroll loop of scrape_google_maps
(src/main.py lines 145-195). -/

/-- Observation made at one iteration of the scroll loop: the two stop
flags as read at the top of the iteration and the number of result cards
currently rendered. -/
structure PollObs where
  stopAll : Bool
  stopScroll : Bool
  count : Nat
deriving DecidableEq

/-- Reasons the scroll loop ends; ranOut marks an observation sequence
that ended while the loop was still running. -/
inductive ScrollExit where
  | aborted : ScrollExit
  | stoppedScrolling : ScrollExit
  | reachedTarget : ScrollExit
  | converged : ScrollExit
  | ranOut : ScrollExit
deriving DecidableEq

/-- Embedding of the scroll loop: state is (last_count, no_new_cards_scrolls)
with max_cards = 80 and max_no_new_cards_scrolls = 6; returns the exit
reason and the number of iterations consumed (src/main.py lines 145-195). -/
def scrollLoop : Nat → Nat → List PollObs → ScrollExit × Nat
  | _, _, [] => (.ranOut, 0)
  | lastCount, noNew, o :: rest =>
    if o.stopAll then (.aborted, 1)
    else if o.stopScroll then (.stoppedScrolling, 1)
    else if 80 ≤ o.count then (.reachedTarget, 1)
    else if 6 ≤ (if o.count = lastCount then noNew + 1 else 0) then (.converged, 1)
    else
      ((scrollLoop o.count (if o.count = lastCount then noNew + 1 else 0) rest).1,
       (scrollLoop o.count (if o.count = lastCount then noNew + 1 else 0) rest).2 + 1)

/-! Regex scan models used by the heuristic extractor and the contact
resolver.  Each models the leftmost match of the corresponding Python
pattern, with greedy repetition resolved as the re module does. -/

/-- Model of the regex word class (ASCII portion). -/
def isWordChar (c : Char) : Bool := c.isAlphanum || c = '_'

/-- Character class of the email patterns: word characters, dot, dash. -/
def emailClassChar (c : Char) : Bool := isWordChar c || c = '.' || c = '-'

def lower (s : Str) : Str := s.map Char.toLower

/-- Pattern-first startsWith test on character lists. -/
def startsWith : Str → Str → Bool
  | [], _ => true
  | _ :: _, [] => false
  | p :: ps, c :: cs => p = c && startsWith ps cs

/-- Case-insensitive startsWith, for patterns compiled with re.I. -/
def startsWithCI (p s : Str) : Bool := startsWith (lower p) (lower s)

/-- Match of the Gmail pattern (a run of word/dot/dash characters followed
by the literal at-gmail-dot-com, case-insensitively) anchored at the start
of the input (src/main.py lines 379, 387). -/
def gmailMatchAt (s : Str) : Option Str :=
  let run := s.takeWhile emailClassChar
  let rest := s.drop run.length
  if !run.isEmpty && startsWithCI (str ("@gmail.com")) rest then
    some (run ++ rest.take 10)
  else none

/-- Leftmost match of the Gmail pattern anywhere in the input. -/
def gmailSearch : Str → Option Str
  | [] => none
  | c :: cs =>
    match gmailMatchAt (c :: cs) with
    | some m => some m
    | none => gmailSearch cs

/-- Largest feasible backtracking point of the generic email pattern: the
last position j of the run after the at-sign holding a dot that is
preceded by at least one class character and followed by a word
character. -/
def findLastDotIdx (run : Str) : Option Nat :=
  ((List.range run.length).filter
    (fun j => decide (1 ≤ j) && decide (run.getD j ' ' = '.') && isWordChar (run.getD (j + 1) ' '))).getLast?

/-- Match of the generic email pattern (class run, at-sign, class run,
dot, word run) anchored at the start of the input (src/main.py line 238). -/
def emailMatchAt (s : Str) : Option Str :=
  let run1 := s.takeWhile emailClassChar
  let rest1 := s.drop run1.length
  if run1.isEmpty then none
  else
    match rest1 with
    | '@' :: rest2 =>
      let run2 := rest2.takeWhile emailClassChar
      match findLastDotIdx run2 with
      | none => none
      | some j =>
        let w := (run2.drop (j + 1)).takeWhile isWordChar
        some (run1 ++ '@' :: (run2.take j ++ '.' :: w))
    | _ => none

/-- Leftmost match of the generic email pattern anywhere in the input. -/
def emailScan : Str → Option Str
  | [] => none
  | c :: cs =>
    match emailMatchAt (c :: cs) with
    | some m => some m
    | none => emailScan cs

/-- Character class of the phone pattern body: digits, whitespace, dashes,
parentheses, dots. -/
def phoneClassChar (c : Char) : Bool :=
  c.isDigit || isSpace c || c = '-' || c = '(' || c = ')' || c = '.'

/-- Largest feasible backtracking point of the phone pattern: the last
index t of the class run with at least eight class characters before it
and holding a digit (the final digit of the match). -/
def findLastDigitIdx (run : Str) : Option Nat :=
  ((List.range run.length).filter
    (fun t => decide (8 ≤ t) && (run.getD t ' ').isDigit)).getLast?

/-- Match of the phone pattern after the optional leading plus: a digit,
at least eight class characters, a digit (src/main.py line 227). -/
def phoneCore : Str → Option Str
  | [] => none
  | d :: rest =>
    if d.isDigit then
      let run := rest.takeWhile phoneClassChar
      match findLastDigitIdx run with
      | some t => some (d :: run.take (t + 1))
      | none => none
    else none

/-- Match of the phone pattern anchored at the start of the input,
resolving the optional leading plus. -/
def phoneMatchAt (s : Str) : Option Str :=
  match s with
  | '+' :: rest => (phoneCore rest).map (fun m => '+' :: m)
  | _ => phoneCore s

/-- Leftmost match of the phone pattern anywhere in the input. -/
def phoneScan : Str → Option Str
  | [] => none
  | c :: cs =>
    match phoneMatchAt (c :: cs) with
    | some m => some m
    | none => phoneScan cs

/-- Model of href.replace applied to the mailto scheme (src/main.py line
236): removes every occurrence of the seven-character mailto marker. -/
def replaceAllMailtoAux : Nat → Str → Str
  | 0, s => s
  | _ + 1, [] => []
  | n + 1, c :: cs =>
    if startsWith (str ("mailto:")) (c :: cs) then replaceAllMailtoAux n ((c :: cs).drop 7)
    else c :: replaceAllMailtoAux n cs

def replaceMailto (s : Str) : Str := replaceAllMailtoAux s.length s

/-! Embedding of the per-item extraction pipeline of scrape_google_maps
(src/main.py lines 196-277) and of find_gmail_on_website (lines 357-395). -/

/-- One accumulated business record; all fields are strings, as appended
to the data list (src/main.py lines 265-272).  The same shape carries the
six field values through cleaning and contact resolution. -/
structure BusinessRecord where
  name : Str
  businessType : Str
  address : Str
  phone : Str
  email : Str
  website : Str
deriving DecidableEq

/-- Per-item DOM observations feeding the heuristic extraction branch:
the safe_text results for each selector group (empty when nothing
matched) and the optional href attributes of the website and mailto
links. -/
structure PageObs where
  nameSel : Str
  typeSel : Str
  addrSel : Str
  phoneSel : Str
  websiteSel : Str
  websiteHref : Option Str
  emailHref : Option Str
deriving DecidableEq

/-- Embedding of the heuristic extraction branch (src/main.py lines
222-239): selector text first, then the regex fallbacks over the captured
page text for phone and email, then the link fallbacks. -/
def heuristicExtract (pg : PageObs) (allText : Str) : BusinessRecord :=
  let name := pg.nameSel
  let businessType := pg.typeSel
  let address := pg.addrSel
  let phone0 := pg.phoneSel
  let phone := if phone0 = [] then (phoneScan allText).getD [] else phone0
  let website0 := pg.websiteSel
  let website :=
    if website0 = [] then
      match pg.websiteHref with
      | some h => h
      | none => []
    else website0
  let email0 :=
    match pg.emailHref with
    | some h => strip (replaceMailto h)
    | none => []
  let email := if email0 = [] then (emailScan allText).getD [] else email0
  ⟨name, businessType, address, phone, email, website⟩

/-- Python truthiness of a JSON value, as used by `if gemini_data:`
(src/main.py line 214). -/
def pyTruthyJ : JVal → Bool
  | .null => false
  | .bool b => b
  | .num n => n != 0
  | .jstr s => !s.isEmpty
  | .arr xs => !xs.isEmpty
  | .obj es => !es.isEmpty

/-- Model of dict.get with a default of the empty string (src/main.py
lines 215-220); the attribute lookup fails on a non-object value.  For
duplicate keys the decoder keeps the last binding, hence the reversed
search. -/
def dynGet (v : JVal) (k : Str) : Except Unit JVal :=
  match v with
  | .obj es => .ok ((((es.reverse).find? (fun p => p.1 == k)).map Prod.snd).getD (.jstr []))
  | _ => .error ()

/-- Behaviour of clean_field on an arbitrary JSON value: falsy values
take the early empty-string return, strings are cleaned, and any other
truthy value makes re.sub raise a TypeError (src/main.py lines 83-93). -/
def cleanFieldDyn (v : JVal) : Except Unit Str :=
  if pyTruthyJ v = false then .ok []
  else
    match v with
    | .jstr s => .ok (clean_field s)
    | _ => .error ()

/-- Applies clean_field to all six fields (src/main.py lines 240-245). -/
def cleanSix (f : BusinessRecord) : BusinessRecord :=
  ⟨clean_field f.name, clean_field f.businessType, clean_field f.address,
   clean_field f.phone, clean_field f.email, clean_field f.website⟩

/-- Embedding of the field-computation portion of the per-item loop body
(src/main.py lines 214-245): the gemini branch when the returned object
is truthy, the heuristic branch otherwise, then cleaning. -/
def coordinatorFields (gemini : Option JVal) (pg : PageObs) (allText : Str) :
    Except Unit BusinessRecord :=
  match gemini with
  | some g =>
    if pyTruthyJ g then do
      let vn ← dynGet g (str ("Business Name"))
      let vt ← dynGet g (str ("Business Type"))
      let va ← dynGet g (str ("Address"))
      let vp ← dynGet g (str ("Phone Number"))
      let ve ← dynGet g (str ("Email"))
      let vw ← dynGet g (str ("Website"))
      let name ← cleanFieldDyn vn
      let businessType ← cleanFieldDyn vt
      let address ← cleanFieldDyn va
      let phone ← cleanFieldDyn vp
      let email ← cleanFieldDyn ve
      let website ← cleanFieldDyn vw
      return ⟨name, businessType, address, phone, email, website⟩
    else .ok (cleanSix (heuristicExtract pg allText))
  | none => .ok (cleanSix (heuristicExtract pg allText))

/-- Observable outcome of awaiting find_gmail_on_website: the call either
raises or returns a string. -/
inductive ResolverObs where
  | raise : ResolverObs
  | ret (s : Str) : ResolverObs
deriving DecidableEq

/-- Condition under which the contact resolver is invoked (src/main.py
line 247): cleaned email empty or without an at-sign, cleaned website
non-empty and starting with http. -/
def resCond (f : BusinessRecord) : Prop :=
  (f.email = [] ∨ '@' ∉ f.email) ∧ f.website ≠ [] ∧ startsWith (str ("http")) f.website = true

instance (f : BusinessRecord) : Decidable (resCond f) := by
  unfold resCond; infer_instance

/-- Embedding of the contact-resolution step (src/main.py lines 246-253):
under resCond the resolver result replaces the email when non-empty, and
a raised exception is swallowed keeping the record unchanged. -/
def applyResolver (f : BusinessRecord) (r : ResolverObs) : BusinessRecord :=
  if resCond f then
    match r with
    | .raise => f
    | .ret s => if s ≠ [] then { f with email := s } else f
  else f

/-- Outcome of the guarded try block of one item (src/main.py lines
208-272): either an exception at some step, or the captured page text
with the gemini result, the DOM observations and the resolver outcome. -/
inductive TryObs where
  | raise : TryObs
  | proceed (allText : Str) (gemini : Option JVal) (pg : PageObs) (r : ResolverObs) : TryObs

/-- Observation of one enumerated card: the stop-all flag read at the top
of the iteration, the data-result-index attribute if present, and the
try-block outcome. -/
structure ItemObs where
  stopAll : Bool
  attrId : Option Str
  step : TryObs

/-- State of the extraction loop: the seen card-id set, the dedup key set
and the accumulated records (src/main.py lines 120-121, 197). -/
structure ExtractState where
  seen : List Str
  keys : List (Str × Str × Str × Str × Str × Str)
  data : List BusinessRecord

/-- Lower-cased six-field dedup key (src/main.py lines 254-261). -/
def dedupKey (f : BusinessRecord) : Str × Str × Str × Str × Str × Str :=
  (lower f.name, lower f.businessType, lower f.address,
   lower f.phone, lower f.email, lower f.website)

def natToStr (n : Nat) : Str := (Nat.repr n).data

/-- Effect of one non-breaking iteration of the extraction loop on the
state (src/main.py lines 204-275): card-id dedup, the try block with its
except-continue, field computation, contact resolution, tuple dedup and
append. -/
def processItemFields (st : ExtractState) (cid : Str) :
    Except Unit BusinessRecord → ResolverObs → ExtractState
  | .error _, _ => { st with seen := cid :: st.seen }
  | .ok f0, r =>
    if dedupKey (applyResolver f0 r) ∈ st.keys then { st with seen := cid :: st.seen }
    else
      { seen := cid :: st.seen,
        keys := dedupKey (applyResolver f0 r) :: st.keys,
        data := st.data ++ [applyResolver f0 r] }

/-- Body of the guarded try block: the raise outcome only records the
card id; otherwise the computed fields flow into contact resolution,
tuple dedup and append (src/main.py lines 208-275). -/
def processItemCore (st : ExtractState) (cid : Str) : TryObs → ExtractState
  | .raise => { st with seen := cid :: st.seen }
  | .proceed allText gemini pg r =>
    processItemFields st cid (coordinatorFields gemini pg allText) r

def processItem (st : ExtractState) (idx : Nat) (it : ItemObs) : ExtractState :=
  if it.attrId.getD (natToStr idx) ∈ st.seen then st
  else processItemCore st (it.attrId.getD (natToStr idx)) it.step

/-- Break conditions checked at the top of each iteration (src/main.py
lines 199-203): stop-all and the max_cards = 80 cap on accumulated
records; none signals the loop breaks before processing the item. -/
def stepItem (st : ExtractState) (idx : Nat) (it : ItemObs) : Option ExtractState :=
  if it.stopAll then none
  else if 80 ≤ st.data.length then none
  else some (processItem st idx it)

/-- Embedding of the extraction loop (src/main.py lines 198-275): the
final data list is returned both on exhaustion and on break. -/
def extractLoop : ExtractState → Nat → List ItemObs → List BusinessRecord
  | st, _, [] => st.data
  | st, idx, it :: rest =>
    match stepItem st idx it with
    | none => st.data
    | some st' => extractLoop st' (idx + 1) rest

/-- Embedding of scrape_google_maps (src/main.py lines 119-277): the
scroll phase followed by the extraction phase; a stop-all during
scrolling returns the (still empty) data list at once. -/
def scrape_google_maps (polls : List PollObs) (items : List ItemObs) : List BusinessRecord :=
  match scrollLoop 0 0 polls with
  | (.aborted, _) => []
  | _ => extractLoop ⟨[], [], []⟩ 0 items

/-- Observations consumed by find_gmail_on_website: whether navigation
raised, the text of each contact-selector element that was found (none
for a missing element or a raised selector lookup), whether the body
capture raised, and the captured body text. -/
structure GmailObs where
  navFail : Bool
  sections : List (Option Str)
  bodyFail : Bool
  bodyText : Str

/-- First contact section whose text contains a Gmail match (src/main.py
lines 374-384). -/
def firstSectionMatch : List (Option Str) → Option Str
  | [] => none
  | none :: rest => firstSectionMatch rest
  | some s :: rest =>
    match gmailSearch s with
    | some m => some m
    | none => firstSectionMatch rest

/-- Embedding of find_gmail_on_website (src/main.py lines 357-395): any
failure path degrades to the empty string, never to a raised exception. -/
def findGmail (o : GmailObs) : Str :=
  if o.navFail then []
  else
    match firstSectionMatch o.sections with
    | some m => m
    | none =>
      if o.bodyFail then []
      else (gmailSearch o.bodyText).getD []

/-! Concrete inputs used by the counterexample and witness theorems. -/

/-- Page observations with only a heuristic name. -/
def pgNameOnly : PageObs := ⟨str ("Acme"), [], [], [], [], none, none⟩

/-- Page observations with only a website link. -/
def pgSiteOnly : PageObs := ⟨[], [], [], [], [], some (str ("http://x.com")), none⟩

/-- Item whose AI extraction returns null, whose heuristic email is empty
and whose contact resolver finds an address. -/
def itemResolverCE : ItemObs :=
  ⟨false, some (str ("0")), .proceed [] none pgSiteOnly (.ret (str ("x@gmail.com")))⟩

/-- Attempt sequence hitting a non-429 HTTP error first and succeeding on
the second attempt. -/
def obsHttp500 : Nat → AttemptObs :=
  fun i => if i = 0 then .httpError 500 else .success (str ("\x7b\"a\":\"b\"\x7d"))

/-- Reply text whose first balanced JSON object is the whole text but
whose first-brace-to-first-brace segment is not valid JSON. -/
def nestedReply : Str := str ("\x7b\"a\":\x7b\"b\":1\x7d\x7d")

/-! Lemmas about the field cleaner. -/

theorem rdropSpace_eq_rdropWhile (s : Str) : rdropSpace s = List.rdropWhile isSpace s := rfl

theorem exists_append_rdropWhile {α : Type} (p : α → Bool) (t : List α) :
    ∃ u, t = List.rdropWhile p t ++ u := by
  refine ⟨(t.reverse.takeWhile p).reverse, ?_⟩
  conv_lhs => rw [← t.reverse_reverse]
  rw [← List.takeWhile_append_dropWhile (p := p) (l := t.reverse), List.reverse_append]
  simp [List.rdropWhile]

theorem dropWhile_rdropWhile_self {α : Type} {p : α → Bool} {t : List α}
    (h : List.dropWhile p t = t) :
    List.dropWhile p (List.rdropWhile p t) = List.rdropWhile p t := by
  cases hr : List.rdropWhile p t with
  | nil => simp
  | cons c u' =>
    obtain ⟨u, hu⟩ := exists_append_rdropWhile p t
    rw [hr] at hu
    have hc : p c = false := by
      by_contra hc'
      have hc2 : p c = true := by revert hc'; cases p c <;> simp
      rw [hu] at h
      rw [List.cons_append, List.dropWhile_cons_of_pos hc2] at h
      have hlen := (List.IsSuffix.sublist (List.dropWhile_suffix (l := u' ++ u) p)).length_le
      rw [h] at hlen
      simp at hlen
    simp [List.dropWhile_cons, hc]

theorem strip_idem (s : Str) : strip (strip s) = strip s := by
  show List.rdropWhile isSpace
      (List.dropWhile isSpace (List.rdropWhile isSpace (List.dropWhile isSpace s))) =
    List.rdropWhile isSpace (List.dropWhile isSpace s)
  rw [dropWhile_rdropWhile_self (List.dropWhile_idempotent isSpace s),
    List.rdropWhile_idempotent]

theorem mem_of_mem_dropWhile {α : Type} {p : α → Bool} {c : α} {s : List α}
    (h : c ∈ List.dropWhile p s) : c ∈ s :=
  (List.IsSuffix.sublist (List.dropWhile_suffix p)).mem h

theorem mem_of_mem_rdropWhile {α : Type} {p : α → Bool} {c : α} {t : List α}
    (h : c ∈ List.rdropWhile p t) : c ∈ t := by
  obtain ⟨u, hu⟩ := exists_append_rdropWhile p t
  rw [hu]
  exact List.mem_append.mpr (Or.inl h)

theorem mem_of_mem_strip {c : Char} {s : Str} (h : c ∈ strip s) : c ∈ s :=
  mem_of_mem_dropWhile (mem_of_mem_rdropWhile h)

theorem splitOnChar_ne_nil (sep : Char) (s : Str) : splitOnChar sep s ≠ [] := by
  cases s with
  | nil => simp [splitOnChar]
  | cons c cs =>
    simp only [splitOnChar]
    split <;> simp

theorem mem_splitOnChar {sep : Char} : ∀ {s part : Str}, part ∈ splitOnChar sep s →
    ∀ {c : Char}, c ∈ part → c ∈ s ∧ c ≠ sep := by
  intro s
  induction s with
  | nil =>
    intro part hp c hc
    simp [splitOnChar] at hp
    subst hp
    simp at hc
  | cons a as ih =>
    intro part hp c hc
    simp only [splitOnChar] at hp
    cases h : splitOnChar sep as with
    | nil => exact absurd h (splitOnChar_ne_nil sep as)
    | cons p ps =>
      rw [h] at hp
      by_cases ha : a = sep
      · rw [if_pos ha] at hp
        rcases List.mem_cons.mp hp with h1 | h1
        · subst h1; simp at hc
        · have := ih (h ▸ h1) hc
          exact ⟨List.mem_cons_of_mem a this.1, this.2⟩
      · rw [if_neg ha] at hp
        simp only [List.headD_cons, List.tail_cons] at hp
        rcases List.mem_cons.mp hp with h1 | h1
        · subst h1
          rcases List.mem_cons.mp hc with h2 | h2
          · rw [h2]; exact ⟨List.mem_cons_self a as, ha⟩
          · have hpmem : p ∈ splitOnChar sep as := by rw [h]; exact List.mem_cons_self p ps
            have := ih hpmem h2
            exact ⟨List.mem_cons_of_mem a this.1, this.2⟩
        · have hmem : part ∈ splitOnChar sep as := by
            rw [h]; exact List.mem_cons_of_mem p h1
          have := ih hmem hc
          exact ⟨List.mem_cons_of_mem a this.1, this.2⟩

theorem splitOnChar_of_no_sep {sep : Char} : ∀ {s : Str}, sep ∉ s → splitOnChar sep s = [s] := by
  intro s
  induction s with
  | nil => intro _; rfl
  | cons a as ih =>
    intro h
    have ha : a ≠ sep := fun e => h (e ▸ List.mem_cons_self a as)
    have has : sep ∉ as := fun m => h (List.mem_cons_of_mem a m)
    simp only [splitOnChar, ih has, List.headD_cons, List.tail_cons]
    rw [if_neg ha]

theorem mem_joinSp : ∀ {ls : List Str} {c : Char}, c ∈ joinSp ls →
    c = ' ' ∨ ∃ l ∈ ls, c ∈ l := by
  intro ls
  induction ls with
  | nil => intro c hc; simp [joinSp] at hc
  | cons l tail ih =>
    intro c hc
    cases tail with
    | nil =>
      right
      exact ⟨l, List.mem_cons_self l [], hc⟩
    | cons l2 t2 =>
      simp only [joinSp] at hc
      rcases List.mem_append.mp hc with h1 | h1
      · exact Or.inr ⟨l, List.mem_cons_self l _, h1⟩
      · rcases List.mem_cons.mp h1 with h2 | h2
        · exact Or.inl h2
        · rcases ih h2 with h3 | ⟨l', hl', hc'⟩
          · exact Or.inl h3
          · exact Or.inr ⟨l', List.mem_cons_of_mem l hl', hc'⟩

theorem mem_dedupFirstAux_iff {α : Type} [DecidableEq α] {a : α} :
    ∀ {xs seen : List α}, a ∈ dedupFirstAux seen xs ↔ a ∈ xs ∧ a ∉ seen := by
  intro xs
  induction xs with
  | nil => intro seen; simp [dedupFirstAux]
  | cons x xs ih =>
    intro seen
    simp only [dedupFirstAux]
    by_cases hx : x ∈ seen
    · rw [if_pos hx, ih]
      constructor
      · rintro ⟨h1, h2⟩; exact ⟨List.mem_cons_of_mem x h1, h2⟩
      · rintro ⟨h1, h2⟩
        rcases List.mem_cons.mp h1 with h3 | h3
        · exact absurd (h3 ▸ hx) h2
        · exact ⟨h3, h2⟩
    · rw [if_neg hx]
      constructor
      · intro h1
        rcases List.mem_cons.mp h1 with h3 | h3
        · subst h3; exact ⟨List.mem_cons_self a xs, hx⟩
        · have := ih.mp h3
          refine ⟨List.mem_cons_of_mem x this.1, fun hm => this.2 (List.mem_cons_of_mem x hm)⟩
      · rintro ⟨h1, h2⟩
        rcases List.mem_cons.mp h1 with h3 | h3
        · subst h3; exact List.mem_cons_self a _
        · by_cases hax : a = x
          · subst hax; exact List.mem_cons_self a _
          · exact List.mem_cons_of_mem x (ih.mpr ⟨h3, by
              intro hm
              rcases List.mem_cons.mp hm with h4 | h4
              · exact hax h4
              · exact h2 h4⟩)

theorem nodup_dedupFirstAux {α : Type} [DecidableEq α] :
    ∀ (xs seen : List α), (dedupFirstAux seen xs).Nodup := by
  intro xs
  induction xs with
  | nil => intro seen; simp [dedupFirstAux]
  | cons x xs ih =>
    intro seen
    simp only [dedupFirstAux]
    by_cases hx : x ∈ seen
    · rw [if_pos hx]; exact ih seen
    · rw [if_neg hx]
      refine List.nodup_cons.mpr ⟨fun hm => ?_, ih (x :: seen)⟩
      exact (mem_dedupFirstAux_iff.mp hm).2 (List.mem_cons_self x seen)

theorem indexOf_cons_self_str (a : Str) (l : List Str) : List.indexOf a (a :: l) = 0 := by
  simp [List.indexOf, List.findIdx_cons]

theorem indexOf_cons_ne_str {a b : Str} (l : List Str) (h : b ≠ a) :
    List.indexOf a (b :: l) = List.indexOf a l + 1 := by
  have hb : (b == a) = false := beq_eq_false_iff_ne.mpr h
  simp [List.indexOf, List.findIdx_cons, hb]

theorem pairwise_dedupFirstAux :
    ∀ (xs seen : List Str),
      (dedupFirstAux seen xs).Pairwise (fun a b => xs.indexOf a < xs.indexOf b) := by
  intro xs
  induction xs with
  | nil => intro seen; simp [dedupFirstAux]
  | cons x xs ih =>
    intro seen
    simp only [dedupFirstAux]
    by_cases hx : x ∈ seen
    · rw [if_pos hx]
      refine (ih seen).imp_of_mem ?_
      intro a b ha hb hlt
      have ha' := mem_dedupFirstAux_iff.mp ha
      have hb' := mem_dedupFirstAux_iff.mp hb
      have hax : a ≠ x := fun e => ha'.2 (e ▸ hx)
      have hbx : b ≠ x := fun e => hb'.2 (e ▸ hx)
      rw [indexOf_cons_ne_str xs hax.symm, indexOf_cons_ne_str xs hbx.symm]
      omega
    · rw [if_neg hx]
      refine List.pairwise_cons.mpr ⟨?_, ?_⟩
      · intro b hb
        have hb' := mem_dedupFirstAux_iff.mp hb
        have hbx : b ≠ x := fun e => hb'.2 (e ▸ List.mem_cons_self x seen)
        rw [indexOf_cons_self_str x xs, indexOf_cons_ne_str xs hbx.symm]
        omega
      · refine (ih (x :: seen)).imp_of_mem ?_
        intro a b ha hb hlt
        have ha' := mem_dedupFirstAux_iff.mp ha
        have hb' := mem_dedupFirstAux_iff.mp hb
        have hax : a ≠ x := fun e => ha'.2 (e ▸ List.mem_cons_self x seen)
        have hbx : b ≠ x := fun e => hb'.2 (e ▸ List.mem_cons_self x seen)
        rw [indexOf_cons_ne_str xs hax.symm, indexOf_cons_ne_str xs hbx.symm]
        omega

theorem clean_field_chars (x : Str) : ∀ c ∈ clean_field x, isZW c = false ∧ c ≠ '\n' := by
  intro c hc
  unfold clean_field at hc
  by_cases hx : x = []
  · rw [if_pos hx] at hc; simp at hc
  · rw [if_neg hx] at hc
    simp only at hc
    have hc1 := mem_of_mem_strip hc
    rcases mem_joinSp hc1 with h1 | ⟨l, hl, hcl⟩
    · subst h1
      refine ⟨by decide, by decide⟩
    · have hl1 : l ∈ ((splitOnChar '\n' (x.filter (fun c => !(isZW c)))).map strip).filter
          (fun l => decide (l ≠ [])) := (mem_dedupFirstAux_iff.mp hl).1
      have hl2 := List.mem_filter.mp hl1
      rcases List.mem_map.mp hl2.1 with ⟨part, hpart, hstrip⟩
      have hcpart : c ∈ part := mem_of_mem_strip (hstrip ▸ hcl)
      have := mem_splitOnChar hpart hcpart
      refine ⟨?_, this.2⟩
      have := List.mem_filter.mp this.1
      simpa using this.2

theorem strip_clean_field (x : Str) : strip (clean_field x) = clean_field x := by
  unfold clean_field
  by_cases hx : x = []
  · rw [if_pos hx]; rfl
  · rw [if_neg hx]
    simp only
    exact strip_idem _

theorem clean_field_of_normal {y : Str}
    (h1 : ∀ c ∈ y, isZW c = false ∧ c ≠ '\n') (h2 : strip y = y) :
    clean_field y = y := by
  by_cases hy : y = []
  · rw [hy]; rfl
  · unfold clean_field
    rw [if_neg hy]
    simp only
    have hv : y.filter (fun c => !(isZW c)) = y := by
      rw [List.filter_eq_self]
      intro c hc
      rw [(h1 c hc).1]
      rfl
    rw [hv]
    have hnl : ('\n' : Char) ∉ y := fun m => (h1 _ m).2 rfl
    rw [splitOnChar_of_no_sep hnl]
    simp only [List.map_cons, List.map_nil, h2]
    rw [List.filter_cons_of_pos (by simpa using hy), List.filter_nil]
    simp only [dedupFirstAux]
    rw [if_neg (List.not_mem_nil y)]
    simp only [joinSp]
    exact h2

theorem clean_field_idem (x : Str) : clean_field (clean_field x) = clean_field x :=
  clean_field_of_normal (clean_field_chars x) (strip_clean_field x)

/-- C6: the Field Cleaner is idempotent, and its duplicate-line removal
keeps exactly the lines of the input (first occurrence of each distinct
line), without duplicates, ordered by first occurrence in the input. -/
theorem c6_clean_field_idempotent_and_dedup_first_order :
    (∀ x : Str, clean_field (clean_field x) = clean_field x) ∧
    (∀ (ls : List Str) (a : Str), a ∈ dedupFirstAux [] ls ↔ a ∈ ls) ∧
    (∀ ls : List Str, (dedupFirstAux [] ls).Nodup) ∧
    (∀ ls : List Str,
      (dedupFirstAux [] ls).Pairwise (fun a b => ls.indexOf a < ls.indexOf b)) := by
  refine ⟨clean_field_idem, ?_, fun ls => nodup_dedupFirstAux ls [],
    fun ls => pairwise_dedupFirstAux ls []⟩
  intro ls a
  rw [mem_dedupFirstAux_iff]
  simp

/-! Lemmas about the AI extractor retry loop and reply parsing. -/

theorem geminiRun_none_of_no_success :
    ∀ l : List AttemptObs, (∀ o ∈ l, isSuccessA o = false) → geminiRun l = none := by
  intro l
  induction l with
  | nil => intro _; rfl
  | cons o rest ih =>
    intro h
    have hrest : ∀ o ∈ rest, isSuccessA o = false :=
      fun o' ho' => h o' (List.mem_cons_of_mem o ho')
    cases o with
    | timeout => simpa [geminiRun] using ih hrest
    | httpError s =>
      by_cases hs : s = 429
      · simpa [geminiRun, hs] using ih hrest
      · by_cases hr : rest = []
        · simp [geminiRun, hs, hr]
        · simpa [geminiRun, hs, hr] using ih hrest
    | otherError =>
      by_cases hr : rest = []
      · simp [geminiRun, hr]
      · simpa [geminiRun, hr] using ih hrest
    | success reply =>
      exact absurd (h _ (List.mem_cons_self _ _)) (by simp [isSuccessA])

/-- C3 (amended): in gemini_generate a timeout retries, an HTTP 429
retries, and any other error (HTTP or otherwise) also retries unless it
happens on the final attempt, in which case the function returns null;
exhausting the bounded attempt count (7 attempts) without a response
yields null; only the first 7 attempt outcomes are ever consulted; the
function returns a value rather than raising on every path. -/
theorem c3_gemini_retry_policy :
    (∀ rest, geminiRun (.timeout :: rest) = geminiRun rest) ∧
    (∀ rest, geminiRun (.httpError 429 :: rest) = geminiRun rest) ∧
    (∀ s rest, rest ≠ [] → geminiRun (.httpError s :: rest) = geminiRun rest) ∧
    (∀ s, geminiRun [.httpError s] = none) ∧
    (∀ rest, rest ≠ [] → geminiRun (.otherError :: rest) = geminiRun rest) ∧
    (geminiRun [.otherError] = none) ∧
    (geminiRun [] = none) ∧
    (∀ obs : Nat → AttemptObs, (∀ i, i < 7 → isSuccessA (obs i) = false) →
      gemini_generate obs = none) ∧
    (∀ obs obs' : Nat → AttemptObs, (∀ i, i < 7 → obs i = obs' i) →
      gemini_generate obs = gemini_generate obs') := by
  refine ⟨fun rest => rfl, fun rest => by simp [geminiRun], ?_, ?_, ?_, rfl, rfl, ?_, ?_⟩
  · intro s rest h
    by_cases hs : s = 429 <;> simp [geminiRun, hs, h]
  · intro s
    by_cases hs : s = 429 <;> simp [geminiRun, hs]
  · intro rest h
    simp [geminiRun, h]
  · intro obs h
    apply geminiRun_none_of_no_success
    intro o ho
    rcases List.mem_map.mp ho with ⟨i, hi, rfl⟩
    exact h i (List.mem_range.mp hi)
  · intro obs obs' h
    unfold gemini_generate
    congr 1
    apply List.map_congr_left
    intro i hi
    exact h i (List.mem_range.mp hi)

/-- C3 as stated is false: the first attempt hits HTTP 500, an error
other than 429, yet the function retries and returns a non-null object
from the second attempt instead of returning null. -/
theorem c3_counterexample_http_error_retries :
    gemini_generate obsHttp500 = some (.obj [(str ("a"), .jstr (str ("b")))]) ∧
    obsHttp500 0 = .httpError 500 ∧ (500 : Nat) ≠ 429 :=
  ⟨rfl, rfl, by decide⟩

/-- Witness for c3_gemini_retry_policy. -/
theorem c3_gemini_retry_policy_witness :
    geminiRun [.httpError 500, .timeout] = geminiRun [.timeout] :=
  c3_gemini_retry_policy.2.2.1 500 [.timeout] (by simp)

theorem takeToBrace_append {mid : Str} (post : Str) (h : '}' ∉ mid) :
    takeToBrace (mid ++ '}' :: post) = some (mid ++ ['}']) := by
  induction mid with
  | nil => simp [takeToBrace]
  | cons c cs ih =>
    have hc : c ≠ '}' := fun e => h (e ▸ List.mem_cons_self c cs)
    have hcs : '}' ∉ cs := fun m => h (List.mem_cons_of_mem c m)
    simp [takeToBrace, hc, ih hcs]

theorem takeToBrace_none {mid : Str} (h : '}' ∉ mid) : takeToBrace mid = none := by
  induction mid with
  | nil => rfl
  | cons c cs ih =>
    have hc : c ≠ '}' := fun e => h (e ▸ List.mem_cons_self c cs)
    have hcs : '}' ∉ cs := fun m => h (List.mem_cons_of_mem c m)
    simp [takeToBrace, hc, ih hcs]

theorem reSearchBrace_append {pre : Str} (rest : Str) (h : '{' ∉ pre) :
    reSearchBrace (pre ++ '{' :: rest) = (takeToBrace rest).map (fun t => '{' :: t) := by
  induction pre with
  | nil => simp [reSearchBrace]
  | cons c cs ih =>
    have hc : c ≠ '{' := fun e => h (e ▸ List.mem_cons_self c cs)
    have hcs : '{' ∉ cs := fun m => h (List.mem_cons_of_mem c m)
    simp [reSearchBrace, hc, ih hcs]

theorem reSearchBrace_none {text : Str} (h : '{' ∉ text) : reSearchBrace text = none := by
  induction text with
  | nil => rfl
  | cons c cs ih =>
    have hc : c ≠ '{' := fun e => h (e ▸ List.mem_cons_self c cs)
    have hcs : '{' ∉ cs := fun m => h (List.mem_cons_of_mem c m)
    simp [reSearchBrace, hc, ih hcs]

/-- C7 (amended): the reply parser hands the json decoder the segment
running from the first opening brace of the reply to the first closing
brace after it (tolerating arbitrary surrounding content, and, through
raw_decode, trailing content after the decoded value); with no opening
brace, with no closing brace after the first opening brace, or when the
decoder fails on that segment, the result is null, and no path raises. -/
theorem c7_reply_parsing :
    (∀ text : Str, '{' ∉ text → parseReply text = none) ∧
    (∀ pre mid post : Str, '{' ∉ pre → '}' ∉ mid →
      parseReply (pre ++ '{' :: (mid ++ '}' :: post)) = rawDecode ('{' :: (mid ++ ['}']))) ∧
    (∀ pre mid : Str, '{' ∉ pre → '}' ∉ mid →
      parseReply (pre ++ '{' :: mid) = none) := by
  refine ⟨?_, ?_, ?_⟩
  · intro text h
    simp [parseReply, reSearchBrace_none h]
  · intro pre mid post hpre hmid
    simp [parseReply, reSearchBrace_append _ hpre, takeToBrace_append post hmid]
  · intro pre mid hpre hmid
    simp [parseReply, reSearchBrace_append _ hpre, takeToBrace_none hmid]

/-- C7 as stated is false: nestedReply contains a balanced JSON object
(the whole reply decodes), but the parser extracts only up to the first
closing brace and returns null. -/
theorem c7_counterexample_nested_object :
    parseReply nestedReply = none ∧
    rawDecode nestedReply = some (.obj [(str ("a"), .obj [(str ("b"), .num 1)])]) :=
  ⟨rfl, rfl⟩

/-- Witness for c7_reply_parsing. -/
theorem c7_reply_parsing_witness :
    parseReply (str ("no json ") ++ '{' :: (str ("\"k\":\"v\"") ++ '}' :: str (" tail"))) =
      rawDecode ('{' :: (str ("\"k\":\"v\"") ++ ['}'])) :=
  c7_reply_parsing.2.1 (str ("no json ")) (str ("\"k\":\"v\"")) (str (" tail"))
    (by decide) (by decide)

/-! Lemmas about the scroll loop. -/

theorem scrollLoop_converges_aux :
    ∀ (obs : List PollObs) (nn c : Nat),
      (∀ o ∈ obs, o.count = c) → 6 - nn ≤ obs.length → 1 ≤ obs.length →
      (scrollLoop c nn obs).1 ≠ .ranOut ∧ (scrollLoop c nn obs).2 ≤ max (6 - nn) 1 := by
  intro obs
  induction obs with
  | nil => intro nn c _ _ h1; simp at h1
  | cons o rest ih =>
    intro nn c hc h6 _
    have hoc : o.count = c := hc o (List.mem_cons_self o rest)
    have hcrest : ∀ o' ∈ rest, o'.count = c := fun o' h => hc o' (List.mem_cons_of_mem o h)
    simp only [scrollLoop, hoc, if_pos rfl]
    split_ifs with h1 h2 h3 h4
    · exact ⟨by simp, le_max_of_le_right (by omega)⟩
    · exact ⟨by simp, le_max_of_le_right (by omega)⟩
    · exact ⟨by simp, le_max_of_le_right (by omega)⟩
    · exact ⟨by simp, le_max_of_le_right (by omega)⟩
    · have hlen : 6 - (nn + 1) ≤ rest.length := by
        simp only [List.length_cons] at h6
        omega
      have hlen1 : 1 ≤ rest.length := by
        simp only [List.length_cons] at h6
        omega
      obtain ⟨ihA, ihB⟩ := ih (nn + 1) c hcrest hlen hlen1
      refine ⟨by simpa using ihA, ?_⟩
      simp only
      omega

/-- C4: the scroll loop ends at once when the stop-all signal is set,
when the stop-scrolling signal is set, or when at least the target count
of 80 cards is loaded; and when the card count stops growing it ends
within maxNoGrowthAttempts + 1 = 7 further polls without running out of
observations. -/
theorem c4_scroll_loop_termination :
    (∀ lc nn (o : PollObs) rest, o.stopAll = true →
      scrollLoop lc nn (o :: rest) = (.aborted, 1)) ∧
    (∀ lc nn (o : PollObs) rest, o.stopAll = false → o.stopScroll = true →
      scrollLoop lc nn (o :: rest) = (.stoppedScrolling, 1)) ∧
    (∀ lc nn (o : PollObs) rest, o.stopAll = false → o.stopScroll = false → 80 ≤ o.count →
      scrollLoop lc nn (o :: rest) = (.reachedTarget, 1)) ∧
    (∀ lc nn (o : PollObs) rest, o.stopAll = false → o.stopScroll = false → o.count < 80 →
      o.count = lc → 6 ≤ nn + 1 → scrollLoop lc nn (o :: rest) = (.converged, 1)) ∧
    (∀ lc nn c (obs : List PollObs), (∀ o ∈ obs, o.count = c) → 7 ≤ obs.length →
      (scrollLoop lc nn obs).1 ≠ .ranOut ∧ (scrollLoop lc nn obs).2 ≤ 7) := by
  refine ⟨?_, ?_, ?_, ?_, ?_⟩
  · intro lc nn o rest h
    simp [scrollLoop, h]
  · intro lc nn o rest h1 h2
    simp [scrollLoop, h1, h2]
  · intro lc nn o rest h1 h2 h3
    simp [scrollLoop, h1, h2, h3]
  · intro lc nn o rest h1 h2 h3 h4 h5
    rw [← h4]
    simp [scrollLoop, h1, h2, Nat.not_le.mpr h3, h5]
  · intro lc nn c obs hc hlen
    cases obs with
    | nil => simp at hlen
    | cons o rest =>
      have hoc : o.count = c := hc o (List.mem_cons_self o rest)
      have hcrest : ∀ o' ∈ rest, o'.count = c := fun o' h => hc o' (List.mem_cons_of_mem o h)
      have hr6 : 6 ≤ rest.length := by
        simp only [List.length_cons] at hlen
        omega
      have key : ∀ nn', (scrollLoop o.count nn' rest).1 ≠ .ranOut ∧
          (scrollLoop o.count nn' rest).2 + 1 ≤ 7 := by
        intro nn'
        obtain ⟨A, B⟩ := scrollLoop_converges_aux rest nn' c hcrest (by omega) (by omega)
        rw [hoc]
        have hm : max (6 - nn') 1 ≤ 6 := max_le (by omega) (by omega)
        exact ⟨A, by omega⟩
      simp only [scrollLoop]
      split_ifs with h1 h2 h3 h4 h5 h6
      · exact ⟨by simp, by omega⟩
      · exact ⟨by simp, by omega⟩
      · exact ⟨by simp, by omega⟩
      · exact ⟨by simp, by omega⟩
      · exact ⟨by simpa using (key (nn + 1)).1, by simpa using (key (nn + 1)).2⟩
      · exact ⟨by simp, by omega⟩
      · exact ⟨by simpa using (key 0).1, by simpa using (key 0).2⟩

/-- Witness for c4_scroll_loop_termination. -/
theorem c4_scroll_loop_termination_witness :
    (scrollLoop 0 0 (List.replicate 7 (⟨false, false, 5⟩ : PollObs))).1 ≠ .ranOut ∧
      (scrollLoop 0 0 (List.replicate 7 (⟨false, false, 5⟩ : PollObs))).2 ≤ 7 :=
  c4_scroll_loop_termination.2.2.2.2 0 0 5 (List.replicate 7 ⟨false, false, 5⟩)
    (by intro o ho; simp [List.eq_of_mem_replicate ho]) (by simp)

/-! Lemmas about the extraction loop. -/

theorem processItem_inv (st : ExtractState) (idx : Nat) (it : ItemObs)
    (h1 : ∀ r ∈ st.data, dedupKey r ∈ st.keys)
    (h2 : st.data.Pairwise (fun a b => dedupKey a ≠ dedupKey b)) :
    (∀ r ∈ (processItem st idx it).data, dedupKey r ∈ (processItem st idx it).keys) ∧
      (processItem st idx it).data.Pairwise (fun a b => dedupKey a ≠ dedupKey b) := by
  unfold processItem
  split_ifs with hseen
  · exact ⟨h1, h2⟩
  · cases it.step with
    | raise => exact ⟨h1, h2⟩
    | proceed allText gemini pg r =>
      simp only [processItemCore]
      cases hcf : coordinatorFields gemini pg allText with
      | error e => exact ⟨h1, h2⟩
      | ok f0 =>
        simp only [processItemFields]
        split_ifs with hk
        · exact ⟨h1, h2⟩
        · constructor
          · intro rec hrec
            rcases List.mem_append.mp hrec with hm | hm
            · exact List.mem_cons_of_mem _ (h1 rec hm)
            · simp only [List.mem_singleton] at hm
              subst hm
              exact List.mem_cons_self _ _
          · rw [List.pairwise_append]
            refine ⟨h2, List.pairwise_singleton _ _, ?_⟩
            intro a ha b hb
            simp only [List.mem_singleton] at hb
            subst hb
            intro he
            exact hk (he ▸ h1 a ha)

theorem extractLoop_pairwise :
    ∀ (items : List ItemObs) (st : ExtractState) (idx : Nat),
      (∀ r ∈ st.data, dedupKey r ∈ st.keys) →
      st.data.Pairwise (fun a b => dedupKey a ≠ dedupKey b) →
      (extractLoop st idx items).Pairwise (fun a b => dedupKey a ≠ dedupKey b) := by
  intro items
  induction items with
  | nil => intro st idx _ h2; exact h2
  | cons it rest ih =>
    intro st idx h1 h2
    simp only [extractLoop, stepItem]
    split_ifs with hstop hlen
    · exact h2
    · exact h2
    · obtain ⟨g1, g2⟩ := processItem_inv st idx it h1 h2
      exact ih _ _ g1 g2

theorem countP_le_one_of_pairwise_key :
    ∀ (l : List BusinessRecord) (t : Str × Str × Str × Str × Str × Str),
      l.Pairwise (fun a b => dedupKey a ≠ dedupKey b) →
      l.countP (fun r => decide (dedupKey r = t)) ≤ 1 := by
  intro l
  induction l with
  | nil => intro t _; simp
  | cons r l ih =>
    intro t hp
    obtain ⟨hr, hl⟩ := List.pairwise_cons.mp hp
    rw [List.countP_cons]
    by_cases ht : dedupKey r = t
    · have hzero : l.countP (fun b => decide (dedupKey b = t)) = 0 := by
        rw [List.countP_eq_zero]
        intro b hb
        simp only [decide_eq_true_eq]
        exact fun e => hr b hb (ht ▸ e ▸ rfl)
      simp [hzero, ht]
    · have := ih t hl
      simp [ht]
      omega

/-- C1: across one whole run, for every lower-cased six-field tuple at
most one accumulated record carries it, whatever the item sequence and
order; a later item with an already-present tuple adds nothing. -/
theorem c1_dedup_at_most_one_record :
    ∀ (polls : List PollObs) (items : List ItemObs) (t : Str × Str × Str × Str × Str × Str),
      (scrape_google_maps polls items).countP (fun r => decide (dedupKey r = t)) ≤ 1 := by
  intro polls items t
  unfold scrape_google_maps
  rcases h : scrollLoop 0 0 polls with ⟨e, n⟩
  have hextract : (extractLoop ⟨[], [], []⟩ 0 items).countP
      (fun r => decide (dedupKey r = t)) ≤ 1 :=
    countP_le_one_of_pairwise_key _ t
      (extractLoop_pairwise items ⟨[], [], []⟩ 0 (by intro r hr; simp at hr) (by simp))
  cases e <;> simp [hextract]

/-- C5: once the stop-all flag is observed set at an item, that item and
everything after it contribute nothing: the run returns exactly the
records accumulated over the preceding items. -/
theorem c5_stop_all_partial_success :
    ∀ (pre : List ItemObs) (st : ExtractState) (idx : Nat) (it : ItemObs) (post : List ItemObs),
      it.stopAll = true →
      extractLoop st idx (pre ++ it :: post) = extractLoop st idx pre := by
  intro pre
  induction pre with
  | nil =>
    intro st idx it post h
    simp [extractLoop, stepItem, h]
  | cons a pre ih =>
    intro st idx it post h
    simp only [List.cons_append, extractLoop]
    cases hstep : stepItem st idx a with
    | none => rfl
    | some st' => exact ih st' (idx + 1) it post h

/-- Witness for c5_stop_all_partial_success. -/
theorem c5_stop_all_partial_success_witness :
    extractLoop ⟨[], [], []⟩ 0
        ([itemResolverCE] ++ (⟨true, some (str ("9")), .raise⟩ : ItemObs) ::
          [⟨false, some (str ("8")), .raise⟩]) =
      extractLoop ⟨[], [], []⟩ 0 [itemResolverCE] :=
  c5_stop_all_partial_success [itemResolverCE] ⟨[], [], []⟩ 0
    ⟨true, some (str ("9")), .raise⟩ [⟨false, some (str ("8")), .raise⟩] rfl

/-- C9: an exception at any step of an item's guarded block neither
escapes nor ends the run: the loop records the card id, keeps the data
and key sets unchanged, and continues with the next item. -/
theorem c9_item_exception_skips_item :
    ∀ (st : ExtractState) (idx : Nat) (it : ItemObs) (rest : List ItemObs),
      it.step = .raise → it.stopAll = false → st.data.length < 80 →
      extractLoop st idx (it :: rest) = extractLoop (processItem st idx it) (idx + 1) rest ∧
      (processItem st idx it).data = st.data ∧
      (processItem st idx it).keys = st.keys := by
  intro st idx it rest hstep hstop hlen
  have h1 : stepItem st idx it = some (processItem st idx it) := by
    simp [stepItem, hstop, Nat.not_le.mpr hlen]
  refine ⟨by simp [extractLoop, h1], ?_, ?_⟩
  · unfold processItem
    rw [hstep]
    split_ifs <;> rfl
  · unfold processItem
    rw [hstep]
    split_ifs <;> rfl

/-- Witness for c9_item_exception_skips_item. -/
theorem c9_item_exception_skips_item_witness :
    extractLoop ⟨[], [], []⟩ 0 ((⟨false, some (str ("7")), .raise⟩ : ItemObs) :: [itemResolverCE]) =
        extractLoop (processItem ⟨[], [], []⟩ 0 ⟨false, some (str ("7")), .raise⟩) 1
          [itemResolverCE] ∧
      (processItem ⟨[], [], []⟩ 0 (⟨false, some (str ("7")), .raise⟩ : ItemObs)).data = [] ∧
      (processItem ⟨[], [], []⟩ 0 (⟨false, some (str ("7")), .raise⟩ : ItemObs)).keys = [] :=
  c9_item_exception_skips_item ⟨[], [], []⟩ 0 ⟨false, some (str ("7")), .raise⟩
    [itemResolverCE] rfl rfl (by simp)

/-- C2 (amended): when the AI extractor returns null the computed fields
are exactly the heuristic extractor's output passed through the field
cleaner; every emitted field except email equals that value, and the
email too unless the contact-resolver condition held and the resolver
returned a non-empty address, which then replaces it. -/
theorem c2_null_ai_heuristic_fallback :
    ∀ (pg : PageObs) (t : Str) (r : ResolverObs),
      coordinatorFields none pg t = .ok (cleanSix (heuristicExtract pg t)) ∧
      (applyResolver (cleanSix (heuristicExtract pg t)) r).name =
        (cleanSix (heuristicExtract pg t)).name ∧
      (applyResolver (cleanSix (heuristicExtract pg t)) r).businessType =
        (cleanSix (heuristicExtract pg t)).businessType ∧
      (applyResolver (cleanSix (heuristicExtract pg t)) r).address =
        (cleanSix (heuristicExtract pg t)).address ∧
      (applyResolver (cleanSix (heuristicExtract pg t)) r).phone =
        (cleanSix (heuristicExtract pg t)).phone ∧
      (applyResolver (cleanSix (heuristicExtract pg t)) r).website =
        (cleanSix (heuristicExtract pg t)).website ∧
      ((applyResolver (cleanSix (heuristicExtract pg t)) r).email =
          (cleanSix (heuristicExtract pg t)).email ∨
        ∃ s, r = .ret s ∧ s ≠ [] ∧
          (applyResolver (cleanSix (heuristicExtract pg t)) r).email = s) := by
  intro pg t r
  refine ⟨rfl, ?_⟩
  generalize cleanSix (heuristicExtract pg t) = f
  unfold applyResolver
  split_ifs with hc
  · cases r with
    | raise => exact ⟨rfl, rfl, rfl, rfl, rfl, Or.inl rfl⟩
    | ret s =>
      by_cases hs : s = []
      · refine ⟨?_, ?_, ?_, ?_, ?_, Or.inl ?_⟩ <;> simp [hs]
      · refine ⟨?_, ?_, ?_, ?_, ?_, Or.inr ⟨s, rfl, hs, ?_⟩⟩ <;> simp [hs]
  · exact ⟨rfl, rfl, rfl, rfl, rfl, Or.inl rfl⟩

/-- C2 as stated is false: for itemResolverCE the AI extractor returns
null and the heuristic post-clean email is empty, yet the emitted record
carries the resolver's address instead. -/
theorem c2_counterexample_resolver_overwrites_email :
    extractLoop ⟨[], [], []⟩ 0 [itemResolverCE] =
        [⟨[], [], [], [], str ("x@gmail.com"), str ("http://x.com")⟩] ∧
      (cleanSix (heuristicExtract pgSiteOnly [])).email = [] ∧
      str ("x@gmail.com") ≠ [] := by
  refine ⟨by decide, by decide, by decide⟩

/-- C8: the contact resolver is consulted exactly under resCond (email
empty or at-sign-free, website a non-empty http URL); on a hit the email
is replaced only by a non-empty result; a raised resolver call is
swallowed, leaving the record as if the resolver had found nothing, and
the item is still processed identically; inside the resolver, a failed
navigation yields the empty string. -/
theorem c8_contact_resolver_policy :
    (∀ (f : BusinessRecord) (r r' : ResolverObs), ¬ resCond f →
      applyResolver f r = applyResolver f r' ∧ applyResolver f r = f) ∧
    (∀ (f : BusinessRecord) (s : Str), resCond f →
      applyResolver f (.ret s) = if s ≠ [] then { f with email := s } else f) ∧
    (∀ f : BusinessRecord, applyResolver f .raise = f) ∧
    (∀ (st : ExtractState) (idx : Nat) (b : Bool) (aid : Option Str) (t : Str)
        (g : Option JVal) (pg : PageObs) (rest : List ItemObs),
      extractLoop st idx (⟨b, aid, .proceed t g pg .raise⟩ :: rest) =
        extractLoop st idx (⟨b, aid, .proceed t g pg (.ret [])⟩ :: rest)) ∧
    (∀ o : GmailObs, o.navFail = true → findGmail o = []) := by
  have hap : ∀ f0 : BusinessRecord, applyResolver f0 .raise = applyResolver f0 (.ret []) := by
    intro f0
    unfold applyResolver
    split_ifs <;> simp
  refine ⟨?_, ?_, ?_, ?_, ?_⟩
  · intro f r r' h
    unfold applyResolver
    rw [if_neg h, if_neg h]
    exact ⟨rfl, rfl⟩
  · intro f s h
    simp [applyResolver, h]
  · intro f
    unfold applyResolver
    split_ifs <;> rfl
  · intro st idx b aid t g pg rest
    have hpi : processItem st idx ⟨b, aid, .proceed t g pg .raise⟩ =
        processItem st idx ⟨b, aid, .proceed t g pg (.ret [])⟩ := by
      unfold processItem processItemCore
      cases hcf : coordinatorFields g pg t <;> simp [hcf, processItemFields, hap]
    simp only [extractLoop, stepItem, hpi]
  · intro o h
    simp [findGmail, h]

/-- Witness for c8_contact_resolver_policy. -/
theorem c8_contact_resolver_policy_witness :
    findGmail ⟨true, [], false, []⟩ = [] :=
  c8_contact_resolver_policy.2.2.2.2 ⟨true, [], false, []⟩ rfl

theorem except_bind_ok {α β : Type} (a : α) (f : α → Except Unit β) :
    (Except.ok a >>= f : Except Unit β) = f a := rfl

theorem cleanFieldDyn_lookup (entries : List (Str × JVal)) (k : Str)
    (hs : ∀ p ∈ entries, ∃ s, p.2 = JVal.jstr s) :
    ∃ out : Str,
      cleanFieldDyn (((entries.reverse.find? (fun p => p.1 == k)).map Prod.snd).getD (.jstr [])) =
        .ok out ∧
      (k ∉ entries.map Prod.fst → out = []) := by
  cases h : entries.reverse.find? (fun p => p.1 == k) with
  | none => exact ⟨[], rfl, fun _ => rfl⟩
  | some q =>
    have hq : q ∈ entries := List.mem_reverse.mp (List.mem_of_find?_eq_some h)
    obtain ⟨s, hs2⟩ := hs q hq
    have hqk : q.1 = k := by
      have := List.find?_some h
      simpa using this
    have hkmem : k ∈ entries.map Prod.fst := List.mem_map.mpr ⟨q, hq, hqk⟩
    by_cases hse : s = []
    · refine ⟨[], ?_, fun _ => rfl⟩
      simp [hs2, hse, cleanFieldDyn, pyTruthyJ]
    · refine ⟨clean_field s, ?_, fun hk => absurd hkmem hk⟩
      simp [hs2, cleanFieldDyn, pyTruthyJ, hse]

/-- C10 (amended): when the AI extractor returns a non-null, non-empty
object all of whose present values are strings, the coordinator computes
its fields from that object alone — no failure and no heuristic fallback,
the page observations being irrelevant — and every one of the six
expected keys that is missing yields the empty string. -/
theorem c10_missing_keys_become_empty :
    ∀ (entries : List (Str × JVal)) (pg pg' : PageObs) (t t' : Str),
      entries ≠ [] → (∀ p ∈ entries, ∃ s, p.2 = JVal.jstr s) →
      ∃ f, coordinatorFields (some (.obj entries)) pg t = .ok f ∧
        coordinatorFields (some (.obj entries)) pg' t' = .ok f ∧
        (str ("Business Name") ∉ entries.map Prod.fst → f.name = []) ∧
        (str ("Business Type") ∉ entries.map Prod.fst → f.businessType = []) ∧
        (str ("Address") ∉ entries.map Prod.fst → f.address = []) ∧
        (str ("Phone Number") ∉ entries.map Prod.fst → f.phone = []) ∧
        (str ("Email") ∉ entries.map Prod.fst → f.email = []) ∧
        (str ("Website") ∉ entries.map Prod.fst → f.website = []) := by
  intro entries pg pg' t t' hne hs
  obtain ⟨o1, h1, m1⟩ := cleanFieldDyn_lookup entries (str ("Business Name")) hs
  obtain ⟨o2, h2, m2⟩ := cleanFieldDyn_lookup entries (str ("Business Type")) hs
  obtain ⟨o3, h3, m3⟩ := cleanFieldDyn_lookup entries (str ("Address")) hs
  obtain ⟨o4, h4, m4⟩ := cleanFieldDyn_lookup entries (str ("Phone Number")) hs
  obtain ⟨o5, h5, m5⟩ := cleanFieldDyn_lookup entries (str ("Email")) hs
  obtain ⟨o6, h6, m6⟩ := cleanFieldDyn_lookup entries (str ("Website")) hs
  have htr : pyTruthyJ (.obj entries) = true := by
    simp [pyTruthyJ, hne]
  refine ⟨⟨o1, o2, o3, o4, o5, o6⟩, ?_, ?_, m1, m2, m3, m4, m5, m6⟩ <;>
    simp [coordinatorFields, htr, dynGet, except_bind_ok, h1, h2, h3, h4, h5, h6]

/-- C10 as stated is false: the empty object is non-null and misses every
expected key, yet the coordinator treats it as falsy and falls back to
heuristic extraction, emitting the heuristic name instead of the empty
string. -/
theorem c10_counterexample_empty_object_falls_back :
    coordinatorFields (some (.obj [])) pgNameOnly [] = .ok ⟨str ("Acme"), [], [], [], [], []⟩ ∧
      str ("Business Name") ∉ (([] : List (Str × JVal)).map Prod.fst) ∧
      str ("Acme") ≠ [] :=
  ⟨rfl, by simp, by decide⟩

/-- Witness for c10_missing_keys_become_empty. -/
theorem c10_missing_keys_become_empty_witness :
    ∃ f, coordinatorFields (some (.obj [(str ("Email"), .jstr (str ("a@b.com")))]))
          pgNameOnly [] = .ok f ∧
        coordinatorFields (some (.obj [(str ("Email"), .jstr (str ("a@b.com")))]))
          pgSiteOnly (str ("zz")) = .ok f ∧
        (str ("Business Name") ∉ [(str ("Email"), JVal.jstr (str ("a@b.com")))].map Prod.fst →
          f.name = []) ∧
        (str ("Business Type") ∉ [(str ("Email"), JVal.jstr (str ("a@b.com")))].map Prod.fst →
          f.businessType = []) ∧
        (str ("Address") ∉ [(str ("Email"), JVal.jstr (str ("a@b.com")))].map Prod.fst →
          f.address = []) ∧
        (str ("Phone Number") ∉ [(str ("Email"), JVal.jstr (str ("a@b.com")))].map Prod.fst →
          f.phone = []) ∧
        (str ("Email") ∉ [(str ("Email"), JVal.jstr (str ("a@b.com")))].map Prod.fst →
          f.email = []) ∧
        (str ("Website") ∉ [(str ("Email"), JVal.jstr (str ("a@b.com")))].map Prod.fst →
          f.website = []) :=
  c10_missing_keys_become_empty [(str ("Email"), .jstr (str ("a@b.com")))] pgNameOnly
    pgSiteOnly [] (str ("zz")) (by simp)
    (by intro p hp; simp at hp; exact ⟨str ("a@b.com"), by rw [hp]⟩)
